import Mathlib

/-!
Verification of the swapi-client-python SDK core against its specification.

Python strings are embedded as `List Char` (sequences of code points); Python
dicts keyed by strings are embedded as association lists built by
insert-or-update (one entry per key, insertion order preserved).  Fallible
Python code returns `Except`/`Option`.  Unbounded `while True` loops are
embedded as fuel-indexed recursions returning `Option` (`none` = fuel ran out),
so termination claims become statements that a concrete fuel suffices.
-/

namespace Swapi

/-! ## Filter-key parsing (`src/swapi_client/_params.py`) -/

/-- Python `str.isdigit` restricted to ASCII strings: nonempty and every
character is a decimal digit. -/
def pyIsDigit (s : List Char) : Bool :=
  !s.isEmpty && s.all Char.isDigit

/-- Python `field.split(".")`: split on every dot, keeping empty segments;
the empty string splits to `[[]]`. -/
def splitDot : List Char → List (List Char)
  | [] => [[]]
  | c :: cs =>
    if c = '.' then [] :: splitDot cs
    else
      match splitDot cs with
      | [] => [[c]]
      | h :: t => (c :: h) :: t

/-- Rejoin dot-separated segments (inverse of `splitDot`). -/
def joinDot : List (List Char) → List Char
  | [] => []
  | [x] => x
  | x :: xs => x ++ '.' :: joinDot xs

/-- All indices at which `pat` occurs as a contiguous substring of `s`. -/
def occIdx (pat s : List Char) : List Nat :=
  (List.range (s.length + 1)).filter (fun i => pat.isPrefixOf (s.drop i))

/-- Index of the last occurrence of `pat` in `s` (`Python str.rsplit(pat, 1)`
splits at this index); `none` when `pat` does not occur (Python `pat in s`
is false). -/
def lastOcc (pat s : List Char) : Option Nat :=
  (occIdx pat s).getLast?

/-- The `"__"` separator of operator suffixes. -/
def dunder : List Char := ['_', '_']

/-- Field part of a parsed filter key: Python `_parse_filter_key` returns
either `list[str]` (one bracket per segment) or `str` (single bracket). -/
inductive FieldSpec
  | segs (parts : List (List Char))
  | whole (f : List Char)
deriving DecidableEq

/-- The `if "__" in key: field, op = key.rsplit("__", 1) else: field, op =
key, "eq"` step shared by `_parse_filter_key` and the claim wording: split at
the last occurrence of `"__"`, defaulting the operator to `eq`. -/
def splitOp (key : List Char) : List Char × List Char :=
  match lastOcc dunder key with
  | some i => (key.take i, key.drop (i + 2))
  | none => (key, ['e', 'q'])

/-- Embedding of `_parse_filter_key` (`_params.py:8`): split off the operator
suffix after the last `"__"` (default operator `eq`), then split the field on
dots; if there is more than one segment and some segment is purely numeric the
field becomes a list of segments, otherwise it stays one literal string. -/
def parse_filter_key (key : List Char) : FieldSpec × List Char :=
  let fo := splitOp key
  let parts := splitDot fo.1
  if 1 < parts.length ∧ parts.any pyIsDigit = true then (.segs parts, fo.2)
  else (.whole fo.1, fo.2)

/-- One `[segment]` bracket pair. -/
def bracket (s : List Char) : List Char := '[' :: (s ++ [']'])

/-- Embedding of `_filter_key` (`_params.py:32`): glue the prefix, one bracket
pair per field segment (or a single bracket for a plain field), and the
operator bracket. -/
def filter_key (pre : List Char) (field : FieldSpec) (op : List Char) : List Char :=
  let brackets :=
    match field with
    | .segs parts => (parts.map bracket).flatten
    | .whole f => bracket f
  pre ++ brackets ++ bracket op

/-- Stated from the spec wording of claim C1 (for comparison with the code):
operator = suffix after the last `"__"` (else `eq`); if at least one
dot-segment is purely numeric, one bracket pair per segment, otherwise the
whole field expression in a single bracket pair; then the operator bracket. -/
def claimWireKey (pre key : List Char) : List Char :=
  let fo := splitOp key
  let parts := splitDot fo.1
  let brackets :=
    if parts.any pyIsDigit = true then (parts.map bracket).flatten
    else bracket fo.1
  pre ++ brackets ++ bracket fo.2

/-- The operator set named by the spec invariant (also listed in the `Q`
docstring in `v2/q.py`). -/
def opSet : List (List Char) :=
  ["eq".data, "neq".data, "lt".data, "lte".data, "gt".data, "gte".data,
   "in".data, "notIn".data, "like".data, "ilike".data, "notLike".data,
   "hasText".data, "isNull".data, "isNotNull".data]

/-- Embedding of `SWAPIQuerySet.LOOKUP_MAP` (`v2/queryset.py:61`): Django
lookup suffix mapped to SWAPI wire operator. -/
def LOOKUP_MAP : List (String × String) :=
  [("exact", "eq"), ("iexact", "ilike"), ("contains", "like"),
   ("icontains", "ilike"), ("startswith", "like"), ("istartswith", "ilike"),
   ("endswith", "like"), ("iendswith", "ilike"), ("gt", "gt"), ("gte", "gte"),
   ("lt", "lt"), ("lte", "lte"), ("in", "in"), ("isnull", "isNull")]

theorem splitDot_ne_nil (s : List Char) : splitDot s ≠ [] := by
  cases s with
  | nil => simp [splitDot]
  | cons c cs =>
    simp only [splitDot]
    split
    · simp
    · cases h : splitDot cs <;> simp

theorem joinDot_splitDot (s : List Char) : joinDot (splitDot s) = s := by
  induction s with
  | nil => simp [splitDot, joinDot]
  | cons c cs ih =>
    simp only [splitDot]
    split
    · rename_i hc
      subst hc
      cases h : splitDot cs with
      | nil => exact absurd h (splitDot_ne_nil cs)
      | cons x xs =>
        rw [h] at ih
        simp [joinDot, ih]
    · cases h : splitDot cs with
      | nil => exact absurd h (splitDot_ne_nil cs)
      | cons x xs =>
        rw [h] at ih
        cases xs with
        | nil => simpa [joinDot] using congrArg (c :: ·) ih
        | cons y ys => simpa [joinDot] using congrArg (c :: ·) ih

theorem eq_of_splitDot_singleton {s p : List Char} (h : splitDot s = [p]) : s = p := by
  have := joinDot_splitDot s
  rw [h] at this
  simpa [joinDot] using this.symm

theorem singleton_of_splitDot_short {s : List Char}
    (h : ¬ 1 < (splitDot s).length) : splitDot s = [s] := by
  cases hs : splitDot s with
  | nil => exact absurd hs (splitDot_ne_nil s)
  | cons p t =>
    cases t with
    | nil => rw [eq_of_splitDot_singleton hs]
    | cons q u => rw [hs] at h; exact absurd (by simp) h

/-- C1: for every filter key and namespace prefix, the wire key the code
builds (`_filter_key` applied to `_parse_filter_key`) is exactly the one the
spec describes: operator = suffix after the last double-underscore (else
`eq`); one bracket pair per dot-segment when some segment is purely numeric,
otherwise the whole field expression (dot included) in a single bracket pair;
followed by the operator bracket. -/
theorem c1_filter_key_compilation (pre key : List Char) :
    filter_key pre (parse_filter_key key).1 (parse_filter_key key).2 =
      claimWireKey pre key := by
  simp only [parse_filter_key, claimWireKey]
  by_cases hd : (splitDot (splitOp key).1).any pyIsDigit = true
  · by_cases hl : 1 < (splitDot (splitOp key).1).length
    · rw [if_pos ⟨hl, hd⟩, if_pos hd]
      simp [filter_key]
    · rw [if_neg (fun h => hl h.1), if_pos hd]
      rw [singleton_of_splitDot_short hl]
      simp [filter_key]
  · rw [if_neg (fun h => hd h.2), if_neg hd]
    simp [filter_key]

theorem parse_filter_key_snd (key : List Char) :
    (parse_filter_key key).2 = (splitOp key).2 := by
  simp only [parse_filter_key]
  split <;> rfl

/-- C7 counterexample: `_parse_filter_key` does not validate the operator
suffix; the docstring example `"name__contains"` already yields the operator
`contains`, which is not in the spec operator set. -/
theorem c7_counterexample :
    (parse_filter_key "name__contains".data).2 = "contains".data ∧
      "contains".data ∉ opSet := by
  decide

/-- C7 (amended): a key carrying no double-underscore suffix parses to the
default operator `eq`, and every operator produced by the queryset lookup
table is in the spec operator set; but `_parse_filter_key` itself passes any
explicit suffix through unvalidated, so operator-set membership does not hold
for arbitrary parsed keys. -/
theorem c7_default_eq_and_lookup_map_operators :
    (∀ key : List Char, lastOcc dunder key = none →
        (parse_filter_key key).2 = "eq".data) ∧
      ∀ p ∈ LOOKUP_MAP, p.2.data ∈ opSet := by
  refine ⟨fun key h => ?_, by decide⟩
  rw [parse_filter_key_snd]
  simp [splitOp, h]

theorem c7_default_eq_and_lookup_map_operators_witness :
    (parse_filter_key "status".data).2 = "eq".data ∧
      ("exact", "eq").2.data ∈ opSet :=
  ⟨c7_default_eq_and_lookup_map_operators.1 "status".data (by decide),
   c7_default_eq_and_lookup_map_operators.2 ("exact", "eq") (by decide)⟩

/-! ## Pagination traversals (`resources/_base.py` and `client.py`) -/

/-- Ceiling division, the page bound of the spec. -/
def ceilDiv (a b : Nat) : Nat := (a + b - 1) / b

/-- One page response seen by the resource-level traversal: the `data` list
and the reported `meta["total"]` (0 when the server reports no total). -/
structure PageResp (α : Type) where
  data : List α
  total : Nat

/-- Fuel-indexed embedding of the `while True` loop of `SyncResource.all`
(`resources/_base.py:58`, identical in `AsyncResource.all`): fetch page
`page` (1-based), extend the accumulator, read the reported total, and stop
when the page is empty or the accumulated count reaches the total, else
advance the page number.  Returns the items and the number of page requests
made; `none` means the fuel ran out before the loop stopped. -/
def resource_all_loop (server : Nat → PageResp α) :
    Nat → Nat → List α → Nat → Option (List α × Nat)
  | 0, _, _, _ => none
  | fuel + 1, page, acc, reqs =>
    let resp := server page
    let acc' := acc ++ resp.data
    if resp.data.isEmpty = true ∨ resp.total ≤ acc'.length then some (acc', reqs + 1)
    else resource_all_loop server fuel (page + 1) acc' (reqs + 1)

/-- `SyncResource.all`: run the loop from page 1 with no items accumulated. -/
def resource_all (server : Nat → PageResp α) (fuel : Nat) :
    Option (List α × Nat) :=
  resource_all_loop server fuel 1 [] 0

/-- Well-behaved page-addressed server over the item list `L` with page size
`limit`: page `p` returns the `p`-th slice of `L` and accurately reports
`total = L.length`. -/
def goodPageServer (L : List α) (limit : Nat) (p : Nat) : PageResp α :=
  ⟨(L.drop ((p - 1) * limit)).take limit, L.length⟩

/-- Server that returns zero items and reports no total (`meta.get("total",
0)` yields 0). -/
def emptyPageServer (α : Type) : Nat → PageResp α := fun _ => ⟨[], 0⟩

/-- Fuel-indexed embedding of the `while True` loop of
`SWApiClient.get_all_pages` (`client.py:198`): fetch at offset `off` with the
hard-coded page size 100, stop on an empty page (without extending), extend
and stop on a short page, else advance the offset by 100. -/
def get_all_pages_loop (server : Nat → List α) :
    Nat → Nat → List α → Nat → Option (List α × Nat)
  | 0, _, _, _ => none
  | fuel + 1, off, acc, reqs =>
    let items := server off
    if items.isEmpty then some (acc, reqs + 1)
    else
      let acc' := acc ++ items
      if items.length < 100 then some (acc', reqs + 1)
      else get_all_pages_loop server fuel (off + 100) acc' (reqs + 1)

/-- `SWApiClient.get_all_pages`: run the loop from offset 0. -/
def get_all_pages (server : Nat → List α) (fuel : Nat) :
    Option (List α × Nat) :=
  get_all_pages_loop server fuel 0 [] 0

/-- Well-behaved offset-addressed server over the item list `L`: offset `o`
returns the next (up to) 100 items. -/
def goodOffsetServer (L : List α) (o : Nat) : List α :=
  (L.drop o).take 100

/-- Offset-addressed server that always returns zero items. -/
def emptyOffsetServer (α : Type) : Nat → List α := fun _ => []

theorem get_all_pages_loop_good (L : List α) :
    ∀ fuel o acc reqs,
      (L.drop o).length / 100 + 1 ≤ fuel →
      get_all_pages_loop (goodOffsetServer L) fuel o acc reqs =
        some (acc ++ L.drop o, reqs + ((L.drop o).length / 100 + 1)) := by
  intro fuel
  induction fuel with
  | zero => intro o acc reqs h; exact absurd h (by omega)
  | succ fuel ih =>
    intro o acc reqs h
    by_cases hnil : L.drop o = []
    · simp [get_all_pages_loop, goodOffsetServer, hnil]
    · have hlen1 : 0 < (L.drop o).length := List.length_pos.2 hnil
      by_cases hshort : (L.drop o).length < 100
      · have htake : (L.drop o).take 100 = L.drop o :=
          List.take_of_length_le (by omega)
        have hdiv : (L.drop o).length / 100 = 0 := Nat.div_eq_of_lt hshort
        have hne : ¬ ((L.drop o).take 100).isEmpty = true := by
          simp [List.isEmpty_iff, List.take_eq_nil_iff, hnil]
        simp only [get_all_pages_loop, goodOffsetServer]
        rw [if_neg hne, htake, if_pos hshort, hdiv]
      · push_neg at hshort
        have htlen : ((L.drop o).take 100).length = 100 := by
          rw [List.length_take]; omega
        have hdrop : (L.drop o).drop 100 = L.drop (o + 100) := by
          rw [List.drop_drop, Nat.add_comm]
        have hldrop : (L.drop (o + 100)).length = (L.drop o).length - 100 := by
          rw [← hdrop, List.length_drop]
        have hge : 1 ≤ (L.drop o).length / 100 :=
          (Nat.one_le_div_iff (by norm_num)).2 hshort
        have hsub : ((L.drop o).length - 100) / 100 = (L.drop o).length / 100 - 1 := by
          have h2 := Nat.add_div_right ((L.drop o).length - 100) (show 0 < 100 by norm_num)
          have h1 : (L.drop o).length - 100 + 100 = (L.drop o).length := by omega
          rw [h1] at h2
          omega
        have hfuel : (L.drop (o + 100)).length / 100 + 1 ≤ fuel := by
          rw [hldrop, hsub]; omega
        have hrec := ih (o + 100) (acc ++ (L.drop o).take 100) (reqs + 1) hfuel
        have hne : ¬ ((L.drop o).take 100).isEmpty = true := by
          simp [List.isEmpty_iff, List.take_eq_nil_iff, hnil]
        simp only [get_all_pages_loop, goodOffsetServer]
        rw [if_neg hne, if_neg (by omega : ¬ ((L.drop o).take 100).length < 100), hrec,
          ← hdrop, List.append_assoc, List.take_append_drop]
        have harith : (reqs + 1) + (((L.drop o).drop 100).length / 100 + 1) =
            reqs + ((L.drop o).length / 100 + 1) := by
          rw [List.length_drop, hsub]; omega
        rw [harith]

theorem resource_all_loop_good (L : List α) (limit : Nat) (hlim : 0 < limit) :
    ∀ fuel p reqs, 1 ≤ p →
      L.drop ((p - 1) * limit) ≠ [] →
      ceilDiv (L.drop ((p - 1) * limit)).length limit ≤ fuel →
      resource_all_loop (goodPageServer L limit) fuel p (L.take ((p - 1) * limit)) reqs =
        some (L, reqs + ceilDiv (L.drop ((p - 1) * limit)).length limit) := by
  intro fuel
  induction fuel with
  | zero =>
    intro p reqs hp hne h
    have hlen1 : 0 < (L.drop ((p - 1) * limit)).length := List.length_pos.2 hne
    have : 1 ≤ ceilDiv (L.drop ((p - 1) * limit)).length limit := by
      unfold ceilDiv
      exact (Nat.one_le_div_iff hlim).2 (by omega)
    exact absurd h (by omega)
  | succ fuel ih =>
    intro p reqs hp hne h
    have hlen1 : 0 < (L.drop ((p - 1) * limit)).length := List.length_pos.2 hne
    have hrl : (L.drop ((p - 1) * limit)).length = L.length - (p - 1) * limit :=
      List.length_drop _ _
    have hta : L.take ((p - 1) * limit) ++ (L.drop ((p - 1) * limit)).take limit =
        L.take ((p - 1) * limit + limit) :=
      (List.take_add L ((p - 1) * limit) limit).symm
    have hdata : ¬ ((L.drop ((p - 1) * limit)).take limit).isEmpty = true := by
      simp [List.isEmpty_iff, List.take_eq_nil_iff, hne]
      omega
    by_cases hlast : L.length ≤ (p - 1) * limit + limit
    · -- final page: the accumulated count reaches the total
      have hacc : L.take ((p - 1) * limit + limit) = L :=
        List.take_of_length_le hlast
      have hceil : ceilDiv (L.drop ((p - 1) * limit)).length limit = 1 := by
        unfold ceilDiv
        apply Nat.div_eq_of_lt_le (by omega) (by omega)
      simp only [resource_all_loop, goodPageServer]
      rw [if_pos (Or.inr (by rw [hta, hacc]))]
      rw [hta, hacc, hceil]
    · -- middle page: the loop advances to page p + 1
      push_neg at hlast
      have hacclen : (L.take ((p - 1) * limit + limit)).length = (p - 1) * limit + limit := by
        rw [List.length_take]
        omega
      have hm2 : (p + 1 - 1) * limit = (p - 1) * limit + limit := by
        cases p with
        | zero => omega
        | succ q => simp [Nat.succ_sub_one, Nat.succ_mul]
      have hdrop2 : L.drop ((p - 1) * limit + limit) =
          (L.drop ((p - 1) * limit)).drop limit := by
        rw [List.drop_drop, Nat.add_comm]
      have hlen2 : (L.drop ((p - 1) * limit + limit)).length =
          (L.drop ((p - 1) * limit)).length - limit := by
        rw [hdrop2, List.length_drop]
      have hne2 : L.drop ((p - 1) * limit + limit) ≠ [] := by
        intro hx
        have := congrArg List.length hx
        rw [hlen2] at this
        simp at this
        omega
      have hceil2 : ceilDiv ((L.drop ((p - 1) * limit)).length - limit) limit =
          ceilDiv (L.drop ((p - 1) * limit)).length limit - 1 := by
        unfold ceilDiv
        have hbig : limit ≤ (L.drop ((p - 1) * limit)).length := by omega
        have hx : ((L.drop ((p - 1) * limit)).length - limit + limit - 1) + limit =
            (L.drop ((p - 1) * limit)).length + limit - 1 := by omega
        have hy : ((L.drop ((p - 1) * limit)).length + limit - 1) / limit =
            ((L.drop ((p - 1) * limit)).length - limit + limit - 1) / limit + 1 := by
          rw [← hx, Nat.add_div_right _ hlim]
        rw [hy, Nat.add_sub_cancel]
      have hceil1 : 1 ≤ ceilDiv (L.drop ((p - 1) * limit)).length limit := by
        unfold ceilDiv
        exact (Nat.one_le_div_iff hlim).2 (by omega)
      have hfuel2 : ceilDiv (L.drop ((p + 1 - 1) * limit)).length limit ≤ fuel := by
        rw [hm2, hlen2, hceil2]
        omega
      have hrec := ih (p + 1) (reqs + 1) (by omega) (by rw [hm2]; exact hne2) hfuel2
      rw [hm2] at hrec
      simp only [resource_all_loop, goodPageServer]
      rw [if_neg ?hcond]
      case hcond =>
        intro hor
        cases hor with
        | inl hempty => exact hdata hempty
        | inr htot =>
          rw [hta, hacclen] at htot
          omega
      rw [hta, hrec]
      have harith : reqs + 1 + ceilDiv (L.drop ((p - 1) * limit + limit)).length limit =
          reqs + ceilDiv (L.drop ((p - 1) * limit)).length limit := by
        rw [hlen2, hceil2]
        omega
      rw [harith]

/-- C2 counterexample: against a well-behaved server holding exactly 100
items, `get_all_pages` (page size hard-coded to 100) makes 2 page requests —
the full page plus a trailing empty page — exceeding `ceil(100/100) = 1`. -/
theorem c2_counterexample :
    get_all_pages (goodOffsetServer (List.replicate 100 0)) 2 =
      some (List.replicate 100 0, 2) ∧
    ¬ (2 ≤ ceilDiv (List.replicate 100 (0 : Nat)).length 100) := by
  constructor
  · rfl
  · decide

/-- C2 (amended): the resource-level `all()` finishes within
`ceil(total/limit)` page requests against a well-behaved server with an
accurately reported total (fetching the full item list), and after exactly
one request against a zero-item no-total server; `get_all_pages`, however,
needs `total/100 + 1` requests with its hard-coded page size 100 — one more
than `ceil(total/100)` whenever the total is a positive multiple of 100 —
and also stops after one request on the zero-item server. -/
theorem c2_pagination_termination :
    (∀ (α : Type) (L : List α) (limit fuel : Nat), 0 < limit → L ≠ [] →
        ceilDiv L.length limit ≤ fuel →
        resource_all (goodPageServer L limit) fuel =
          some (L, ceilDiv L.length limit)) ∧
    (∀ (α : Type) (fuel : Nat), 1 ≤ fuel →
        resource_all (emptyPageServer α) fuel = some ([], 1)) ∧
    (∀ (α : Type) (L : List α) (fuel : Nat), L.length / 100 + 1 ≤ fuel →
        get_all_pages (goodOffsetServer L) fuel =
          some (L, L.length / 100 + 1)) ∧
    (∀ (α : Type) (fuel : Nat), 1 ≤ fuel →
        get_all_pages (emptyOffsetServer α) fuel = some ([], 1)) := by
  refine ⟨?_, ?_, ?_, ?_⟩
  · intro α L limit fuel hlim hne hfuel
    have hg := resource_all_loop_good L limit hlim fuel 1 0 (le_refl 1)
      (by simpa using hne) (by simpa using hfuel)
    simpa [resource_all] using hg
  · intro α fuel hfuel
    cases fuel with
    | zero => exact absurd hfuel (by omega)
    | succ f => simp [resource_all, resource_all_loop, emptyPageServer]
  · intro α L fuel hfuel
    have hg := get_all_pages_loop_good L fuel 0 [] 0 (by simpa using hfuel)
    simpa [get_all_pages] using hg
  · intro α fuel hfuel
    cases fuel with
    | zero => exact absurd hfuel (by omega)
    | succ f => simp [get_all_pages, get_all_pages_loop, emptyOffsetServer]

theorem c2_pagination_termination_witness :
    resource_all (goodPageServer [0, 1, 2] 2) 2 = some ([0, 1, 2], 2) ∧
    resource_all (emptyPageServer Nat) 1 = some ([], 1) ∧
    get_all_pages (goodOffsetServer [5]) 1 = some ([5], 1) ∧
    get_all_pages (emptyOffsetServer Nat) 1 = some ([], 1) :=
  ⟨c2_pagination_termination.1 Nat [0, 1, 2] 2 2 (by decide) (by decide) (by decide),
   c2_pagination_termination.2.1 Nat 1 (by decide),
   c2_pagination_termination.2.2.1 Nat [5] 1 (by decide),
   c2_pagination_termination.2.2.2 Nat 1 (by decide)⟩

/-! ## Authenticated transport (`v2/client.py`) -/

/-- Exception kinds of `v2/exceptions.py` as far as control flow
distinguishes them: `SWAPIAuthError` (raised only by `login`), the generic
`SWAPIError` carrying the HTTP status of a non-2xx response, and the generic
`SWAPIError` raised on unparseable JSON. -/
inductive SWAPIExc
  | authError
  | httpError (status : Nat)
  | jsonError
deriving DecidableEq

/-- Body of a data response: empty text (`resp.text` falsy), parseable JSON
(abstract payload `J`), or unparseable text. -/
inductive Body (J : Type)
  | noText
  | json (j : J)
  | badText
deriving DecidableEq

/-- A data response: HTTP status code and body. -/
structure Resp (J : Type) where
  status : Nat
  body : Body J

/-- A login-endpoint response: HTTP status and the optional `"token"` field
of its JSON body (`none` = field absent; `some ""` is falsy in Python and is
also rejected). -/
structure LoginResp where
  status : Nat
  token : Option String

/-- Mutable state of `SWAPIClient`: the stored bearer token, plus ghost
counters of issued login POSTs and data requests used to index the server
model and to state the exactly-once properties. -/
structure CState where
  token : Option String
  logins : Nat
  reqs : Nat
deriving DecidableEq

/-- Server model: `loginResp n` answers the `n`-th login POST; `resp n tok`
answers the `n`-th data request sent with Authorization token `tok`. -/
structure Srv (J : Type) where
  loginResp : Nat → LoginResp
  resp : Nat → Option String → Resp J

/-- Embedding of `SWAPIClient.login` (`v2/client.py:43`): POST credentials;
a status ≥ 400 raises `SWAPIAuthError` with the stored token untouched; a
missing or empty `token` field raises `SWAPIAuthError` with the stored token
untouched; otherwise the stored token is replaced and returned. -/
def login (srv : Srv J) (s : CState) : CState × Except SWAPIExc String :=
  let r := srv.loginResp s.logins
  let s' := { s with logins := s.logins + 1 }
  if 400 ≤ r.status then (s', .error .authError)
  else
    match r.token with
    | none => (s', .error .authError)
    | some t =>
      if t = "" then (s', .error .authError)
      else ({ s' with token := some t }, .ok t)

/-- Steps 5-6 of `SWAPIClient._request`: a status ≥ 400 raises the generic
`SWAPIError` carrying the status; an empty body parses to the empty payload;
invalid JSON raises the generic `SWAPIError`. -/
def finishResp (emptyJ : J) (r : Resp J) (s : CState) : CState × Except SWAPIExc J :=
  if 400 ≤ r.status then (s, .error (.httpError r.status))
  else
    match r.body with
    | .noText => (s, .ok emptyJ)
    | .json j => (s, .ok j)
    | .badText => (s, .error .jsonError)

/-- Embedding of `SWAPIClient._request` (`v2/client.py:90`) for a single
caller: log in first if no token is held (the login lock's double-check is
degenerate without concurrency), send the request with the current token, on
a 401 re-login unconditionally and retry the same request exactly once with
the refreshed token, then handle errors and parse the body. -/
def request (emptyJ : J) (srv : Srv J) (s0 : CState) : CState × Except SWAPIExc J :=
  match (if s0.token = none then login srv s0 else (s0, .ok "")) with
  | (s, .error e) => (s, .error e)
  | (s1, .ok _) =>
    let r1 := srv.resp s1.reqs s1.token
    let s2 := { s1 with reqs := s1.reqs + 1 }
    if r1.status = 401 then
      match login srv s2 with
      | (s3, .error e) => (s3, .error e)
      | (s3, .ok _) =>
        let r2 := srv.resp s3.reqs s3.token
        let s4 := { s3 with reqs := s3.reqs + 1 }
        finishResp emptyJ r2 s4
    else finishResp emptyJ r1 s2

/-- A server whose data endpoint always answers 401 while logins succeed. -/
def srv401 : Srv Unit :=
  { loginResp := fun _ => ⟨200, some "t"⟩
    resp := fun _ _ => ⟨401, .noText⟩ }

/-- C3 counterexample: against a server that keeps answering 401 after a
successful re-login, `_request` performs exactly one re-login and one retry
(final counters 1 and 2) but raises the generic HTTP-status `SWAPIError`,
not the authentication error (`SWAPIAuthError`) the claim states. -/
theorem c3_counterexample :
    request () srv401 ⟨some "t0", 0, 0⟩ =
      (⟨some "t", 1, 2⟩, .error (.httpError 401)) ∧
    SWAPIExc.httpError 401 ≠ SWAPIExc.authError := by
  constructor
  · rfl
  · decide

/-- C3 (amended): for every request sent while a token is held whose first
response is 401 and whose re-login succeeds with a fresh token, the transport
re-logs in exactly once and retries the same request exactly once with the
refreshed token; if the retried request again returns 401 the transport
raises a terminal error — the generic HTTP-status `SWAPIError`, not an
authentication-specific error — and performs no further retry. -/
theorem c3_single_retry_on_401 (J : Type) (emptyJ : J) (srv : Srv J) (s0 : CState)
    (t t2 : String)
    (htok : s0.token = some t)
    (h401 : (srv.resp s0.reqs (some t)).status = 401)
    (hls : (srv.loginResp s0.logins).status < 400)
    (hlt : (srv.loginResp s0.logins).token = some t2)
    (hne : t2 ≠ "")
    (h401b : (srv.resp (s0.reqs + 1) (some t2)).status = 401) :
    request emptyJ srv s0 =
      ({ token := some t2, logins := s0.logins + 1, reqs := s0.reqs + 2 },
        .error (.httpError 401)) := by
  simp only [request, htok]
  rw [if_neg (by simp [htok])]
  simp only [htok]
  rw [h401, if_pos rfl]
  simp only [login, hlt]
  rw [if_neg (by omega), if_neg hne]
  simp only [finishResp]
  rw [h401b]
  simp

theorem c3_single_retry_on_401_witness :
    request () srv401 ⟨some "t0", 3, 5⟩ =
      ({ token := some "t", logins := 4, reqs := 7 }, .error (.httpError 401)) :=
  c3_single_retry_on_401 Unit () srv401 ⟨some "t0", 3, 5⟩ "t0" "t"
    rfl rfl (by decide) rfl (by decide) rfl

/-- A server that always accepts logins and answers data requests 200. -/
def okSrv : Srv Unit :=
  { loginResp := fun _ => ⟨200, some "tok"⟩
    resp := fun _ _ => ⟨200, .noText⟩ }

/-- C6: on a successful login the stored token is replaced by the response
token; a successful HTTP response lacking a token field raises the
authentication error (not a transport error); and every failing login raises
the authentication error and leaves the previously stored token unchanged. -/
theorem c6_login_token_lifecycle (J : Type) (srv : Srv J) (s : CState) :
    (∀ t, (srv.loginResp s.logins).status < 400 →
        (srv.loginResp s.logins).token = some t → t ≠ "" →
        login srv s = ({ s with logins := s.logins + 1, token := some t }, .ok t)) ∧
    ((srv.loginResp s.logins).status < 400 →
        (srv.loginResp s.logins).token = none →
        (login srv s).2 = .error .authError) ∧
    (∀ e, (login srv s).2 = .error e →
        e = .authError ∧ (login srv s).1.token = s.token) := by
  refine ⟨fun t hst htk hne => ?_, fun hst htk => ?_, fun e he => ?_⟩
  · simp only [login, htk]
    rw [if_neg (by omega), if_neg hne]
  · simp only [login, htk]
    rw [if_neg (by omega)]
  · by_cases hst : 400 ≤ (srv.loginResp s.logins).status
    · have hl : login srv s = ({ s with logins := s.logins + 1 }, .error .authError) := by
        simp only [login]
        rw [if_pos hst]
      rw [hl] at he ⊢
      simp at he
      exact ⟨he.symm, rfl⟩
    · push_neg at hst
      cases htk : (srv.loginResp s.logins).token with
      | none =>
        have hl : login srv s = ({ s with logins := s.logins + 1 }, .error .authError) := by
          simp only [login, htk]
          rw [if_neg (by omega)]
        rw [hl] at he ⊢
        simp at he
        exact ⟨he.symm, rfl⟩
      | some t =>
        by_cases hne : t = ""
        · have hl : login srv s = ({ s with logins := s.logins + 1 }, .error .authError) := by
            simp only [login, htk]
            rw [if_neg (by omega), if_pos hne]
          rw [hl] at he ⊢
          simp at he
          exact ⟨he.symm, rfl⟩
        · have hl : login srv s =
              ({ s with logins := s.logins + 1, token := some t }, .ok t) := by
            simp only [login, htk]
            rw [if_neg (by omega), if_neg hne]
          rw [hl] at he
          simp at he

theorem c6_login_token_lifecycle_witness :
    login okSrv ⟨none, 0, 0⟩ =
      ({ token := some "tok", logins := 1, reqs := 0 }, .ok "tok") :=
  (c6_login_token_lifecycle Unit okSrv ⟨none, 0, 0⟩).1 "tok" (by decide) rfl (by decide)

/-! ## Record model with dirty tracking (`v2/models/base.py`) -/

/-- Python-dict-style association-list update: replace the value at an
existing key in place, else append the entry.  Lists built only through
`aset` have one entry per key, like a Python dict. -/
def aset {V : Type} : List (String × V) → String → V → List (String × V)
  | [], k, v => [(k, v)]
  | (k', v') :: rest, k, v =>
    if k' = k then (k', v) :: rest else (k', v') :: aset rest k v

/-- Python dict lookup (`d.get(k)`). -/
def alookup {V : Type} : List (String × V) → String → Option V
  | [], _ => none
  | (k', v') :: rest, k => if k' = k then some v' else alookup rest k

/-- State of an `APIModel` instance: the dynamic attributes (`__dict__`
without the underscore-prefixed internals), the `_raw` JSON, the `_original`
snapshot and the `_dirty` map.  `DynamicObject`/`DynamicList` wrapping is the
identity on the abstract value type `V`. -/
structure MState (V : Type) where
  fields : List (String × V)
  raw : List (String × V)
  original : List (String × V)
  dirty : List (String × V)
deriving DecidableEq

/-- Embedding of `APIModel.__init__` over a JSON object `data` (keys assumed
unique, as in any JSON object): each entry becomes a dynamic attribute,
`_original` snapshots the data, `_dirty` starts empty. -/
def initModel {V : Type} (data : List (String × V)) : MState V :=
  { fields := data, raw := data, original := data, dirty := [] }

/-- Embedding of `APIModel.__setattr__` (`v2/models/base.py:62`) after
initialization: always store the assigned value; record it in `_dirty` only
when the key is in `_original` and the original value differs. -/
def setattrM {V : Type} [DecidableEq V] (m : MState V) (key : String) (v : V) : MState V :=
  let fields' := aset m.fields key v
  match alookup m.original key with
  | some ov =>
    if ov ≠ v then { m with fields := fields', dirty := aset m.dirty key v }
    else { m with fields := fields' }
  | none => { m with fields := fields' }

/-- The model of claim C4: construct from one field `name = "A"`, assign
`"B"`, then assign the original `"A"` back. -/
def c4_model : MState String :=
  setattrM (setattrM (initModel [("name", "A")]) "name" "B") "name" "A"

/-- C4: the first half of the claim holds (re-assigning the value a field
already had in `_original` records nothing), but `__setattr__` never removes
a stale entry: after assigning `"B"` and then the original `"A"` back, the
current value again equals the original yet `_dirty` still holds
`name = "B"` — the spec invariant is violated by the code. -/
theorem c4_dirty_tracking_gap :
    (setattrM (initModel [("name", "A")]) "name" "A").dirty = [] ∧
    alookup c4_model.fields "name" = alookup c4_model.original "name" ∧
    c4_model.dirty = [("name", "B")] := by
  decide

/-- Network action performed by `save()`. -/
inductive SaveAction (V : Type)
  | post (payload : List (String × V))
  | patchReq (pk : V) (payload : List (String × V))
  | noop
deriving DecidableEq

/-- Default primary-key field of `APIModel`. -/
def pk_field : String := "id"

/-- `APIModel.pk`: `getattr(self, self.pk_field, None)`. -/
def pkM {V : Type} (m : MState V) : Option V := alookup m.fields pk_field

/-- `APIModel._as_payload(full=True)`: every dynamic attribute whose name
does not start with an underscore. -/
def as_payload_full {V : Type} (m : MState V) : List (String × V) :=
  m.fields.filter (fun kv => ¬ kv.1.startsWith "_")

/-- Embedding of `APIModel._reload_from_data` (`v2/models/base.py:171`):
replace `_raw`, rebuild `_original` from the response data, clear `_dirty`,
and overwrite the dynamic attributes with the response entries. -/
def reload_from_data {V : Type} (m : MState V) (data : List (String × V)) : MState V :=
  { raw := data
    original := data
    dirty := []
    fields := data.foldl (fun fs kv => aset fs kv.1 kv.2) m.fields }

/-- Embedding of `APIModel.save` (`v2/models/base.py:109`): no primary key →
POST the full payload and re-snapshot from the response; primary key and
empty `_dirty` → no network call; otherwise PATCH exactly the dirty subset
and re-snapshot from the response.  The client is modelled as the extracted
`data` object each call would return. -/
def save {V : Type} [DecidableEq V] (m : MState V)
    (postResp patchResp : List (String × V)) : SaveAction V × MState V :=
  match pkM m with
  | none => (.post (as_payload_full m), reload_from_data m postResp)
  | some i =>
    if m.dirty.isEmpty then (.noop, m)
    else (.patchReq i m.dirty, reload_from_data m patchResp)

/-- C5: `save()` POSTs the full field set and re-snapshots (empty dirty map,
original replaced by the response) when the record has no primary key;
PATCHes exactly the dirty subset and re-snapshots when it has a primary key
and a non-empty dirty map; and performs no network call when it has a
primary key and an empty dirty map. -/
theorem c5_save_behaviour (V : Type) [DecidableEq V] (m : MState V)
    (postResp patchResp : List (String × V)) :
    (pkM m = none →
      save m postResp patchResp =
        (.post (as_payload_full m), reload_from_data m postResp) ∧
      (save m postResp patchResp).2.dirty = [] ∧
      (save m postResp patchResp).2.original = postResp) ∧
    (∀ i, pkM m = some i → m.dirty ≠ [] →
      save m postResp patchResp =
        (.patchReq i m.dirty, reload_from_data m patchResp) ∧
      (save m postResp patchResp).2.dirty = [] ∧
      (save m postResp patchResp).2.original = patchResp) ∧
    (∀ i, pkM m = some i → m.dirty = [] →
      save m postResp patchResp = (.noop, m)) := by
  refine ⟨fun hpk => ?_, fun i hpk hd => ?_, fun i hpk hd => ?_⟩
  · simp [save, hpk, reload_from_data]
  · simp [save, hpk, List.isEmpty_iff, hd, reload_from_data]
  · simp [save, hpk, List.isEmpty_iff, hd]

/-- The model of the C5 witness: a persisted record with one dirty field. -/
def c5_model : MState String :=
  setattrM (initModel [("id", "1"), ("name", "A")]) "name" "B"

theorem c5_save_behaviour_witness :
    save c5_model [] [("id", "1"), ("name", "B")] =
      (.patchReq "1" c5_model.dirty,
        reload_from_data c5_model [("id", "1"), ("name", "B")]) ∧
    (save c5_model [] [("id", "1"), ("name", "B")]).2.dirty = [] ∧
    (save c5_model [] [("id", "1"), ("name", "B")]).2.original =
      [("id", "1"), ("name", "B")] :=
  (c5_save_behaviour String c5_model [] [("id", "1"), ("name", "B")]).2.1
    "1" (by decide) (by decide)

/-! ## Boolean expression tree `Q` (`v2/q.py`) -/

/-- The connector between children of a `Q` node. -/
inductive Conn
  | AND
  | OR
deriving DecidableEq

/-- The attributes of one Python `Q` object: the leaf filters, the addresses
of the child objects, the connector, and the negation flag.  Objects live in
a store and refer to each other by address, so that "the combinators never
mutate their operands" is expressible. -/
structure QData (V : Type) where
  filters : List (String × V)
  children : List Nat
  connector : Conn
  negated : Bool
deriving DecidableEq

/-- The heap of allocated `Q` objects; an address is an index into it. -/
abbrev QStore (V : Type) := List (QData V)

/-- `Q(**filters)`: allocate a fresh leaf (no children, connector AND, not
negated) and return its address. -/
def qInit {V : Type} (st : QStore V) (filters : List (String × V)) : QStore V × Nat :=
  (st ++ [⟨filters, [], .AND, false⟩], st.length)

/-- `Q.__and__` (`v2/q.py:52`): allocate a fresh `Q()` with children
`[self, other]` and connector AND. -/
def qAnd {V : Type} (st : QStore V) (a b : Nat) : QStore V × Nat :=
  (st ++ [⟨[], [a, b], .AND, false⟩], st.length)

/-- `Q.__or__` (`v2/q.py:62`): fresh node, children `[self, other]`,
connector OR. -/
def qOr {V : Type} (st : QStore V) (a b : Nat) : QStore V × Nat :=
  (st ++ [⟨[], [a, b], .OR, false⟩], st.length)

/-- `Q.__invert__` (`v2/q.py:72`): fresh node with the single child
`[self]`, `negated = True`, connector left at the default AND. -/
def qInvert {V : Type} (st : QStore V) (a : Nat) : QStore V × Nat :=
  (st ++ [⟨[], [a], .AND, true⟩], st.length)

theorem qstore_push_last {V : Type} (l : QStore V) (x : QData V) :
    (l ++ [x])[l.length]? = some x := by
  rw [List.getElem?_append_right (le_refl _)]
  simp

theorem qstore_push_keep {V : Type} (l : QStore V) (x : QData V) (c : Nat)
    (hc : c < l.length) : (l ++ [x])[c]? = l[c]? := by
  rw [List.getElem?_append, if_pos hc]

/-- C8: each combinator allocates a fresh node — at a fresh address — whose
children are exactly the operand addresses (`&` an AND node `[q1, q2]`,
`|` an OR node `[q1, q2]`, `~` a negated node `[q1]`), and every previously
allocated object, in particular the operands with their filters, children,
connector and negation flag, is unchanged in the resulting store. -/
theorem c8_combinators_allocate_fresh (V : Type) (st : QStore V) (a b : Nat) :
    ((qAnd st a b).1[(qAnd st a b).2]? = some ⟨[], [a, b], .AND, false⟩ ∧
      (qAnd st a b).2 = st.length ∧
      ∀ c, c < st.length → (qAnd st a b).1[c]? = st[c]?) ∧
    ((qOr st a b).1[(qOr st a b).2]? = some ⟨[], [a, b], .OR, false⟩ ∧
      (qOr st a b).2 = st.length ∧
      ∀ c, c < st.length → (qOr st a b).1[c]? = st[c]?) ∧
    ((qInvert st a).1[(qInvert st a).2]? = some ⟨[], [a], .AND, true⟩ ∧
      (qInvert st a).2 = st.length ∧
      ∀ c, c < st.length → (qInvert st a).1[c]? = st[c]?) :=
  ⟨⟨qstore_push_last st _, rfl, fun _ hc => qstore_push_keep st _ _ hc⟩,
   ⟨qstore_push_last st _, rfl, fun _ hc => qstore_push_keep st _ _ hc⟩,
   ⟨qstore_push_last st _, rfl, fun _ hc => qstore_push_keep st _ _ hc⟩⟩

/-- A one-object store holding the leaf `Q(status="open")`. -/
def qStore0 : QStore String := (qInit [] [("status", "open")]).1

theorem c8_combinators_allocate_fresh_witness :
    (qAnd qStore0 0 0).1[0]? = qStore0[0]? ∧
    (qAnd qStore0 0 0).1[(qAnd qStore0 0 0).2]? = some ⟨[], [0, 0], .AND, false⟩ :=
  ⟨(c8_combinators_allocate_fresh String qStore0 0 0).1.2.2 0 (by decide),
   (c8_combinators_allocate_fresh String qStore0 0 0).1.1⟩


/-! ## Single-flight login under concurrency (`v2/client.py:101`)

Two concurrent `_request` coroutines are modelled as an interleaved
transition system over the pre-send phase of `_request`: the outer
`if not self.token` check, acquiring `self._login_lock`, the double-check
inside the lock, the awaited `login()` (split into entry and completion, the
token being written at completion), and the lock release.  The cooperative
scheduler is an arbitrary list of task indices; a scheduled task whose next
action is blocked on the lock, or which is already done, leaves the state
unchanged. -/

/-- Program counter of one request coroutine in the pre-send phase. -/
inductive PC
  | start
  | wantLock
  | inLock
  | doLogin
  | finishLogin
  | release
  | done
deriving DecidableEq, Fintype

/-- Shared state of the two coroutines: the two program counters, whether a
token is held, and the owner of the login lock. -/
structure TCore where
  pcs : Fin 2 → PC
  tok : Bool
  lock : Option (Fin 2)
deriving DecidableEq, Fintype

/-- Both requests issued while unauthenticated: no token, lock free. -/
def initCore : TCore := ⟨fun _ => .start, false, none⟩

/-- One atomic step of task `i`. -/
def stepCore (s : TCore) (i : Fin 2) : TCore :=
  match s.pcs i with
  | .start =>
    if s.tok then { s with pcs := fun j => if j = i then .done else s.pcs j }
    else { s with pcs := fun j => if j = i then .wantLock else s.pcs j }
  | .wantLock =>
    match s.lock with
    | none =>
      { s with lock := some i, pcs := fun j => if j = i then .inLock else s.pcs j }
    | some _ => s
  | .inLock =>
    if s.tok then { s with pcs := fun j => if j = i then .release else s.pcs j }
    else { s with pcs := fun j => if j = i then .doLogin else s.pcs j }
  | .doLogin => { s with pcs := fun j => if j = i then .finishLogin else s.pcs j }
  | .finishLogin =>
    { s with tok := true, pcs := fun j => if j = i then .release else s.pcs j }
  | .release =>
    { s with lock := none, pcs := fun j => if j = i then .done else s.pcs j }
  | .done => s

/-- Run a schedule, counting completed `login()` calls: the count bumps on
each `finishLogin` step (the moment `self.token = token` executes). -/
def runCount : List (Fin 2) → TCore → TCore × Nat
  | [], s => (s, 0)
  | i :: rest, s =>
    let r := runCount rest (stepCore s i)
    (r.1, (if s.pcs i = .finishLogin then 1 else 0) + r.2)

/-- The inductive invariant: a coroutine inside the critical section owns the
lock; a coroutine inside `login()` sees no token yet; a coroutine at or past
the lock release has seen a token. -/
abbrev InvCore (s : TCore) : Prop :=
  (∀ i, (s.pcs i = .inLock ∨ s.pcs i = .doLogin ∨ s.pcs i = .finishLogin ∨
      s.pcs i = .release) → s.lock = some i) ∧
  (∀ i, (s.pcs i = .doLogin ∨ s.pcs i = .finishLogin) → s.tok = false) ∧
  (∀ i, (s.pcs i = .release ∨ s.pcs i = .done) → s.tok = true)

theorem invCore_init : InvCore initCore := by decide

set_option maxRecDepth 4000 in
theorem invCore_step : ∀ (s : TCore) (i : Fin 2), InvCore s → InvCore (stepCore s i) := by
  decide

set_option maxRecDepth 4000 in
theorem stepCore_tok_of_finish :
    ∀ (s : TCore) (i : Fin 2), s.pcs i = .finishLogin → (stepCore s i).tok = true := by
  decide

set_option maxRecDepth 4000 in
theorem stepCore_tok_of_not_finish :
    ∀ (s : TCore) (i : Fin 2), ¬ s.pcs i = .finishLogin → (stepCore s i).tok = s.tok := by
  decide

/-- Along any schedule from an invariant state, the number of `finishLogin`
steps taken is exactly the difference between having a token at the end and
at the start. -/
theorem runCount_tok :
    ∀ (sched : List (Fin 2)) (s : TCore), InvCore s →
      InvCore (runCount sched s).1 ∧
      (if s.tok then 1 else 0) + (runCount sched s).2 =
        (if (runCount sched s).1.tok then 1 else 0) := by
  intro sched
  induction sched with
  | nil => exact fun s hs => ⟨hs, by simp [runCount]⟩
  | cons i rest ih =>
    intro s hs
    have hstep := invCore_step s i hs
    obtain ⟨hinv, hcount⟩ := ih (stepCore s i) hstep
    refine ⟨hinv, ?_⟩
    simp only [runCount]
    by_cases hf : s.pcs i = .finishLogin
    · have htok : s.tok = false := hs.2.1 i (Or.inr hf)
      have htok' : (stepCore s i).tok = true := stepCore_tok_of_finish s i hf
      have e1 : (if (stepCore s i).tok = true then (1 : Nat) else 0) = 1 := by
        simp [htok']
      have e2 : (if s.tok = true then (1 : Nat) else 0) = 0 := by
        simp [htok]
      have e3 : (if s.pcs i = PC.finishLogin then (1 : Nat) else 0) = 1 := by
        simp [hf]
      rw [e1] at hcount
      rw [e2, e3]
      omega
    · have htok' : (stepCore s i).tok = s.tok := stepCore_tok_of_not_finish s i hf
      have e1 : (if (stepCore s i).tok = true then (1 : Nat) else 0) =
          (if s.tok = true then (1 : Nat) else 0) := by rw [htok']
      have e3 : (if s.pcs i = PC.finishLogin then (1 : Nat) else 0) = 0 := by
        simp [hf]
      rw [e1] at hcount
      rw [e3]
      omega

/-- C9: in every complete interleaving of two requests issued while no token
is held, exactly one `login()` call is performed: once both coroutines are
done with the login phase, the completed-login count of the schedule is 1 —
the coroutine that finds the lock taken waits on it and, through the
double-check, reuses the token produced by the other coroutine's login
instead of logging in again. -/
theorem c9_single_flight_login (sched : List (Fin 2))
    (h0 : (runCount sched initCore).1.pcs 0 = .done)
    (h1 : (runCount sched initCore).1.pcs 1 = .done) :
    (runCount sched initCore).2 = 1 := by
  obtain ⟨hinv, hcount⟩ := runCount_tok sched initCore invCore_init
  have htok : (runCount sched initCore).1.tok = true :=
    hinv.2.2 0 (Or.inr h0)
  rw [htok] at hcount
  simpa [initCore] using hcount

theorem c9_single_flight_login_witness :
    (runCount [0, 0, 0, 0, 0, 0, 1] initCore).1.pcs 0 = .done ∧
    (runCount [0, 0, 0, 0, 0, 0, 1] initCore).1.pcs 1 = .done ∧
    (runCount [0, 0, 0, 0, 0, 0, 1] initCore).2 = 1 :=
  ⟨by decide, by decide,
   c9_single_flight_login [0, 0, 0, 0, 0, 0, 1] (by decide) (by decide)⟩

/-! ## QuerySet builder state and `first()` (`v2/queryset.py`) -/

/-- A query-parameter value as stored by `_build_params`: strings for
settings/orders, Python ints for the pagination numbers. -/
inductive PVal
  | s (v : String)
  | i (v : Int)
deriving DecidableEq

/-- Builder state of `SWAPIQuerySet` (`v2/queryset.py:79`), one field per
mutable attribute consulted by `_build_params`/`all`/`first`.  Setters mutate
`self` and return it; the embedding passes the state explicitly, the returned
state being the same (now-mutated) Python object. -/
structure QuerySet (V : Type) where
  withRelations : Bool := false
  langS : String := "pl"
  limitToMySettings : Bool := true
  fieldsSel : Option (List String) := none
  extraFieldsSel : Option (List String) := none
  filters : List (List (String × PVal)) := []
  limitLegacy : Option Int := none
  offsetLegacy : Option Int := none
  orderByLegacy : Option String := none
  pageLimit : Option Int := none
  pageOffset : Option Int := none
  pageNumber : Option Int := none
  order : List (String × String) := []
  forFields : Option (List (String × PVal)) := none
  valuesFields : Option (List String) := none
  valuesListFields : Option (List String) := none
  postFilters : List (MState V → Bool) := []

/-- `SWAPIQuerySet.page_limit` (`v2/queryset.py:292`): set `_page_limit` and
return `self` (the Python default argument is 20; `first()` passes 1). -/
def page_limit {V : Type} (qs : QuerySet V) (limit : Int) : QuerySet V :=
  { qs with pageLimit := some limit }

/-- Embedding of `SWAPIQuerySet._build_params` (`v2/queryset.py:333`),
building the Python params dict in source order: settings, field selections,
accumulated filters, legacy pagination, SWAPI `page[...]`, `order[field]`,
and `for[field]`.  Python truthiness (`if self._fields:` etc.) skips both
`None` and empty collections. -/
def build_params {V : Type} (qs : QuerySet V) : List (String × PVal) :=
  let p1 := aset ([] : List (String × PVal)) "setting[with_relations]"
    (.s (if qs.withRelations then "true" else "false"))
  let p2 := aset p1 "setting[lang]" (.s qs.langS)
  let p3 := match qs.fieldsSel with
    | some fs => if fs = [] then p2 else aset p2 "fields" (.s (String.intercalate "," fs))
    | none => p2
  let p4 := match qs.extraFieldsSel with
    | some fs => if fs = [] then p3
        else aset p3 "extra_fields" (.s (String.intercalate "," fs))
    | none => p3
  let p5 := qs.filters.foldl (fun acc f => f.foldl (fun a kv => aset a kv.1 kv.2) acc) p4
  let p6 := match qs.limitLegacy with
    | some n => aset p5 "limit" (.i n)
    | none => p5
  let p7 := match qs.offsetLegacy with
    | some n => aset p6 "offset" (.i n)
    | none => p6
  let p8 := match qs.orderByLegacy with
    | some sv => if sv = "" then p7 else aset p7 "sort" (.s sv)
    | none => p7
  let p9 := match qs.pageLimit with
    | some n => aset p8 "page[limit]" (.i n)
    | none => p8
  let p10 := match qs.pageOffset with
    | some n => aset p9 "page[offset]" (.i n)
    | none => p9
  let p11 := match qs.pageNumber with
    | some n => aset p10 "page[number]" (.i n)
    | none => p10
  let p12 := qs.order.foldl (fun acc fd => aset acc ("order[" ++ fd.1 ++ "]") (.s fd.2)) p11
  match qs.forFields with
  | some l => if l = [] then p12
      else l.foldl (fun acc kv => aset acc ("for[" ++ kv.1 ++ "]") kv.2) p12
  | none => p12

/-- A list response from the server: the raw `data` objects plus the
metadata and diagnostics `all()` passes through. -/
structure QResp (V : Type) where
  data : List (List (String × V))
  meta : List (String × V)
  errors : Option V := none
  warnings : Option V := none
  messages : Option V := none

/-- Result of `SWAPIQuerySet.all` (`v2/queryset.py:402`): a
`SWAPIListResponse`, or the plain lists produced by `values()` /
`values_list()`. -/
inductive AllResult (V : Type)
  | listResp (items : List (MState V)) (meta : List (String × V))
      (errors warnings messages : Option V)
  | valuesRes (rows : List (List (String × Option V)))
  | valuesListRes (rows : List (List (Option V)))

/-- Embedding of `SWAPIQuerySet.all`: fetch with the compiled params, build
one model per raw item, apply the (always-empty in the source) post-filter
hooks, then dispatch on `values()` / `values_list()` /
default `SWAPIListResponse`. -/
def qs_all {V : Type} [DecidableEq V] (qs : QuerySet V)
    (server : List (String × PVal) → QResp V) : AllResult V :=
  let resp := server (build_params qs)
  let objs0 := resp.data.map initModel
  let objs := qs.postFilters.foldl (fun os p => os.filter p) objs0
  match qs.valuesFields with
  | some fs => .valuesRes (objs.map (fun o => fs.map (fun f => (f, alookup o.fields f))))
  | none =>
    match qs.valuesListFields with
    | some fs => .valuesListRes (objs.map (fun o => fs.map (fun f => alookup o.fields f)))
    | none => .listResp objs resp.meta resp.errors resp.warnings resp.messages

/-- What `first()` hands back: `result[0]`, in whichever shape `all()`
produced, or `None` for an empty result. -/
inductive FirstResult (V : Type)
  | model (m : MState V)
  | row (r : List (String × Option V))
  | tup (t : List (Option V))
  | noItem

/-- `result[0] if len(result) > 0 else None` over the `all()` result
(`SWAPIListResponse.__len__`/`__getitem__` index into `items`). -/
def firstOf {V : Type} : AllResult V → FirstResult V
  | .listResp items _ _ _ _ =>
    match items with
    | [] => .noItem
    | m :: _ => .model m
  | .valuesRes rows =>
    match rows with
    | [] => .noItem
    | r :: _ => .row r
  | .valuesListRes rows =>
    match rows with
    | [] => .noItem
    | t :: _ => .tup t

/-- Embedding of `SWAPIQuerySet.first` (`v2/queryset.py:445`):
`qs = self.page_limit(1)` mutates `self` and aliases it, then `all()` runs on
the mutated instance; the returned pair is (the instance's state after the
call, the value returned). -/
def qs_first {V : Type} [DecidableEq V] (qs : QuerySet V)
    (server : List (String × PVal) → QResp V) : QuerySet V × FirstResult V :=
  let qs' := page_limit qs 1
  (qs', firstOf (qs_all qs' server))

theorem alookup_aset_self {V : Type} (l : List (String × V)) (k : String) (v : V) :
    alookup (aset l k v) k = some v := by
  induction l with
  | nil => simp [aset, alookup]
  | cons kv rest ih =>
    by_cases hk : kv.1 = k
    · simp [aset, alookup, hk]
    · simp only [aset, alookup]
      rw [if_neg (by exact hk)]
      simp only [alookup]
      rw [if_neg hk]
      exact ih

theorem alookup_aset_ne {V : Type} (l : List (String × V)) (k k' : String) (v : V)
    (h : k ≠ k') : alookup (aset l k v) k' = alookup l k' := by
  induction l with
  | nil => simp [aset, alookup, h]
  | cons kv rest ih =>
    by_cases hk : kv.1 = k
    · simp only [aset]
      rw [if_pos hk]
      simp only [alookup]
      rw [if_neg (hk ▸ h), if_neg (hk ▸ h)]
    · simp only [aset]
      rw [if_neg hk]
      simp only [alookup]
      by_cases hk' : kv.1 = k'
      · rw [if_pos hk', if_pos hk']
      · rw [if_neg hk', if_neg hk']
        exact ih

theorem alookup_foldl_ne (V A : Type) (k : String) (kf : A → String) (vf : A → V)
    (hk : ∀ x, kf x ≠ k) :
    ∀ (xs : List A) (acc : List (String × V)),
      alookup (xs.foldl (fun a x => aset a (kf x) (vf x)) acc) k = alookup acc k := by
  intro xs
  induction xs with
  | nil => intro acc; rfl
  | cons x t ih =>
    intro acc
    rw [List.foldl_cons, ih, alookup_aset_ne _ _ _ _ (hk x)]

theorem orderKey_ne_pageLimit (f : String) : ("order[" ++ f ++ "]") ≠ "page[limit]" := by
  intro he
  have hd := congrArg String.data he
  rw [String.data_append, String.data_append] at hd
  have h1 : "order[".data = ['o', 'r', 'd', 'e', 'r', '['] := rfl
  have h2 : "page[limit]".data = ['p', 'a', 'g', 'e', '[', 'l', 'i', 'm', 'i', 't', ']'] := rfl
  rw [h1, h2] at hd
  simp only [List.cons_append] at hd
  injection hd with h3 _
  exact absurd h3 (by decide)

theorem forKey_ne_pageLimit (f : String) : ("for[" ++ f ++ "]") ≠ "page[limit]" := by
  intro he
  have hd := congrArg String.data he
  rw [String.data_append, String.data_append] at hd
  have h1 : "for[".data = ['f', 'o', 'r', '['] := rfl
  have h2 : "page[limit]".data = ['p', 'a', 'g', 'e', '[', 'l', 'i', 'm', 'i', 't', ']'] := rfl
  rw [h1, h2] at hd
  simp only [List.cons_append] at hd
  injection hd with h3 _
  exact absurd h3 (by decide)

/-- Once `_page_limit` is set, the compiled params map `page[limit]` to it:
the later `page[offset]`, `page[number]`, `order[...]` and `for[...]` writes
never touch that dict key. -/
theorem build_params_page_limit {V : Type} (qs : QuerySet V) (n : Int)
    (h : qs.pageLimit = some n) :
    alookup (build_params qs) "page[limit]" = some (.i n) := by
  cases hf : qs.forFields with
  | some l =>
    by_cases hl : l = []
    · cases hn : qs.pageNumber <;> cases ho : qs.pageOffset <;>
        (simp only [build_params, h, hf, hn, ho]
         rw [if_pos hl]
         rw [alookup_foldl_ne PVal (String × String) "page[limit]"
           (fun fd => "order[" ++ fd.1 ++ "]") (fun fd => PVal.s fd.2)
           (fun fd => orderKey_ne_pageLimit fd.1)]
         try rw [alookup_aset_ne _ "page[number]" "page[limit]" _ (by decide)]
         try rw [alookup_aset_ne _ "page[offset]" "page[limit]" _ (by decide)]
         exact alookup_aset_self _ _ _)
    · cases hn : qs.pageNumber <;> cases ho : qs.pageOffset <;>
        (simp only [build_params, h, hf, hn, ho]
         rw [if_neg hl]
         rw [alookup_foldl_ne PVal (String × PVal) "page[limit]"
           (fun kv => "for[" ++ kv.1 ++ "]") (fun kv => kv.2)
           (fun kv => forKey_ne_pageLimit kv.1)]
         rw [alookup_foldl_ne PVal (String × String) "page[limit]"
           (fun fd => "order[" ++ fd.1 ++ "]") (fun fd => PVal.s fd.2)
           (fun fd => orderKey_ne_pageLimit fd.1)]
         try rw [alookup_aset_ne _ "page[number]" "page[limit]" _ (by decide)]
         try rw [alookup_aset_ne _ "page[offset]" "page[limit]" _ (by decide)]
         exact alookup_aset_self _ _ _)
  | none =>
    cases hn : qs.pageNumber <;> cases ho : qs.pageOffset <;>
      (simp only [build_params, h, hf, hn, ho]
       rw [alookup_foldl_ne PVal (String × String) "page[limit]"
         (fun fd => "order[" ++ fd.1 ++ "]") (fun fd => PVal.s fd.2)
         (fun fd => orderKey_ne_pageLimit fd.1)]
       try rw [alookup_aset_ne _ "page[number]" "page[limit]" _ (by decide)]
       try rw [alookup_aset_ne _ "page[offset]" "page[limit]" _ (by decide)]
       exact alookup_aset_self _ _ _)

/-- C10: `first()` mutates the queryset instance it is called on — its
page-limit state is permanently 1 afterwards, because `page_limit` returns
`self`, not a copy — so every subsequent `all()` on that instance compiles
`page[limit] = 1` into the wire params; and `first()` itself returns the
first item `all()` produced, or none when the page came back empty. -/
theorem c10_first_mutates_and_heads (V : Type) [inst : DecidableEq V]
    (qs : QuerySet V) (server : List (String × PVal) → QResp V) :
    (qs_first qs server).1 = { qs with pageLimit := some 1 } ∧
    alookup (build_params (qs_first qs server).1) "page[limit]" = some (.i 1) ∧
    (∀ items meta e w ms,
      qs_all (qs_first qs server).1 server = .listResp items meta e w ms →
      (items = [] → (qs_first qs server).2 = .noItem) ∧
      (∀ x rest, items = x :: rest → (qs_first qs server).2 = .model x)) := by
  refine ⟨rfl, build_params_page_limit _ 1 rfl, fun items meta e w ms hall => ⟨?_, ?_⟩⟩
  · intro hnil
    show firstOf (qs_all (page_limit qs 1) server) = .noItem
    rw [show page_limit qs 1 = (qs_first qs server).1 from rfl, hall, hnil]
    rfl
  · intro x rest hcons
    show firstOf (qs_all (page_limit qs 1) server) = .model x
    rw [show page_limit qs 1 = (qs_first qs server).1 from rfl, hall, hcons]
    rfl

/-- A one-item server ignoring its params, used to witness C10. -/
def oneItemServer : List (String × PVal) → QResp String :=
  fun _ => { data := [[("id", "1")]], meta := [] }

theorem c10_first_mutates_and_heads_witness :
    (qs_first ({} : QuerySet String) oneItemServer).1 =
      { ({} : QuerySet String) with pageLimit := some 1 } ∧
    (qs_first ({} : QuerySet String) oneItemServer).2 =
      .model (initModel [("id", "1")]) :=
  ⟨(c10_first_mutates_and_heads String {} oneItemServer).1,
   ((c10_first_mutates_and_heads String {} oneItemServer).2.2
      [initModel [("id", "1")]] [] none none none rfl).2
      (initModel [("id", "1")]) [] rfl⟩

end Swapi
